import Mathlib

/-!
Verification of the Jarvina-Chatbot request-interpretation pipeline.

This file gives a shallow embedding, in Lean 4, of the request pipeline of
the chatbot backend (`app.py`, `database.py`, `llm_client.py`) and proves
properties of it.  The embedding works over Lean `String`/`Char` and models
the ASCII fragment of Python's text operations:

  * `pyLower`    models `str.lower` (ASCII case folding);
  * `reIsSpace`  models the characters matched by the regex class `\s`
                 (for ASCII: space, tab, newline, carriage return,
                 vertical tab, form feed);
  * `strIsSpace` models the characters stripped by `str.strip`
                 (for ASCII: the `\s` characters plus the file/group/
                 record/unit separators 0x1c-0x1f);
  * `isWordChar` models the regex class `\w` (for ASCII: alphanumerics
                 plus underscore).

The external collaborators (HTTP layer, TinyDB storage engine, the Gemini
client) are modelled as explicit state (`AppState`) and as a function
parameter `llm` returning `Except`; `datetime.now()` is modelled as an
explicit `now` string parameter.
-/

namespace Jarvina

/-- ASCII characters matched by the regex class `\s` (Python `re`). -/
def reIsSpace (c : Char) : Bool :=
  c == ' ' || c == '\t' || c == '\n' || c == '\r' || c == '\x0b' || c == '\x0c'

/-- ASCII characters removed by Python's `str.strip()`. -/
def strIsSpace (c : Char) : Bool :=
  reIsSpace c || c == '\x1c' || c == '\x1d' || c == '\x1e' || c == '\x1f'

/-- ASCII characters matched by the regex class `\w`: alphanumerics and
underscore. -/
def isWordChar (c : Char) : Bool :=
  c.isAlphanum || c == '_'

/-- ASCII case folding of a single character, as performed by Python's
`str.lower()` on ASCII input. -/
def pyLower (c : Char) : Char :=
  if 65 ≤ c.toNat ∧ c.toNat ≤ 90 then Char.ofNat (c.toNat + 32) else c

/-- Model of `re.sub(r'\s+', ' ', text)`: every maximal run of whitespace
characters is replaced by a single space.  The boolean flag records whether
the previous character was part of a whitespace run. -/
def collapseWS : Bool → List Char → List Char
  | _, [] => []
  | prev, c :: rest =>
    if reIsSpace c then
      if prev then collapseWS true rest else ' ' :: collapseWS true rest
    else c :: collapseWS false rest

/-- Drop characters satisfying `q` from both ends of a list; with
`q := strIsSpace` this models Python's `str.strip()`. -/
def stripEnds (q : Char → Bool) (l : List Char) : List Char :=
  ((l.dropWhile q).reverse.dropWhile q).reverse

/-- Model of `normalize_text` from `app.py` on character lists:
lowercase, delete characters matching `[^\w\s]`, collapse whitespace runs
to single spaces, strip. -/
def normalizeList (l : List Char) : List Char :=
  stripEnds strIsSpace
    (collapseWS false
      (List.filter (fun c => isWordChar c || reIsSpace c) (l.map pyLower)))

/-- Model of `normalize_text` from `app.py` (lines 41-48). -/
def normalize_text (s : String) : String :=
  ⟨normalizeList s.data⟩

/-- Python `str.lower()` on a whole string (ASCII fragment). -/
def pyLowerStr (s : String) : String :=
  ⟨s.data.map pyLower⟩

/-- Python `str.strip()` on a whole string (ASCII fragment). -/
def pyStrip (s : String) : String :=
  ⟨stripEnds strIsSpace s.data⟩

example : normalize_text "Hello, World!!" = "hello world" := by decide
example : normalize_text "  What\x27s  your NAME? " = "whats your name" := by decide
example : pyStrip (pyLowerStr "  Clear History! ") = "clear history!" := by decide
example : normalize_text "_" = "_" := by decide

/-! Auxiliary lemmas about the normalizer, leading to idempotence. -/

theorem charOfNat_toNat (n : Nat) (h : n < 0xd800) : (Char.ofNat n).toNat = n := by
  unfold Char.ofNat
  rw [dif_pos (Or.inl h)]
  rfl

theorem pyLower_eq_self (c : Char) (h : ¬(65 ≤ c.toNat ∧ c.toNat ≤ 90)) :
    pyLower c = c := if_neg h

theorem toNat_pyLower_not_upper (c : Char) :
    ¬(65 ≤ (pyLower c).toNat ∧ (pyLower c).toNat ≤ 90) := by
  unfold pyLower
  by_cases h : 65 ≤ c.toNat ∧ c.toNat ≤ 90
  · rw [if_pos h, charOfNat_toNat _ (by omega)]
    omega
  · rw [if_neg h]
    omega

theorem pyLower_pyLower (c : Char) : pyLower (pyLower c) = pyLower c :=
  pyLower_eq_self _ (toNat_pyLower_not_upper c)

theorem mem_collapseWS : ∀ (b : Bool) (l : List Char) (c : Char),
    c ∈ collapseWS b l → c = ' ' ∨ c ∈ l := by
  intro b l
  induction l generalizing b with
  | nil => intro c h; simp [collapseWS] at h
  | cons d rest ih =>
    intro c h
    by_cases hd : reIsSpace d
    · cases b with
      | true =>
        simp only [collapseWS, if_pos hd, if_pos rfl] at h
        rcases ih true c h with h1 | h1
        · exact Or.inl h1
        · exact Or.inr (List.mem_cons_of_mem _ h1)
      | false =>
        simp only [collapseWS, if_pos hd] at h
        rcases List.mem_cons.mp h with h1 | h1
        · exact Or.inl h1
        · rcases ih true c h1 with h2 | h2
          · exact Or.inl h2
          · exact Or.inr (List.mem_cons_of_mem _ h2)
    · simp only [collapseWS, if_neg hd] at h
      rcases List.mem_cons.mp h with h1 | h1
      · subst h1; exact Or.inr (List.mem_cons_self _ _)
      · rcases ih false c h1 with h2 | h2
        · exact Or.inl h2
        · exact Or.inr (List.mem_cons_of_mem _ h2)

theorem mem_stripEnds (q : Char → Bool) (l : List Char) (c : Char)
    (h : c ∈ stripEnds q l) : c ∈ l := by
  unfold stripEnds at h
  rw [List.mem_reverse] at h
  have h1 : c ∈ (l.dropWhile q).reverse := (List.dropWhile_suffix q).sublist.subset h
  rw [List.mem_reverse] at h1
  exact (List.dropWhile_suffix q).sublist.subset h1

theorem map_eq_self_of (f : Char → Char) :
    ∀ (l : List Char), (∀ c ∈ l, f c = c) → l.map f = l := by
  intro l h
  induction l with
  | nil => rfl
  | cons a t ih =>
    simp only [List.map_cons]
    rw [h a (List.mem_cons_self a t), ih (fun c hc => h c (List.mem_cons_of_mem a hc))]

/-- Every whitespace character of a list is a plain space. -/
def SpacesBlank (l : List Char) : Prop :=
  ∀ c ∈ l, reIsSpace c = true → c = ' '

/-- No two adjacent characters of the list are both whitespace. -/
def NoTwoSpaces (l : List Char) : Prop :=
  l.Chain' (fun a b => ¬(reIsSpace a = true ∧ reIsSpace b = true))

theorem collapseWS_true_head : ∀ (l : List Char) (c : Char),
    (collapseWS true l).head? = some c → reIsSpace c = false := by
  intro l
  induction l with
  | nil => intro c h; simp [collapseWS] at h
  | cons d rest ih =>
    intro c h
    by_cases hd : reIsSpace d
    · simp only [collapseWS, if_pos hd, if_pos rfl] at h
      exact ih c h
    · simp only [collapseWS, if_neg hd, List.head?_cons] at h
      cases h
      simpa using hd

theorem spacesBlank_collapseWS : ∀ (b : Bool) (l : List Char),
    SpacesBlank (collapseWS b l) := by
  intro b l
  induction l generalizing b with
  | nil => intro c hc _; simp [collapseWS] at hc
  | cons d rest ih =>
    intro c hc hsp
    by_cases hd : reIsSpace d
    · cases b with
      | true =>
        simp only [collapseWS, if_pos hd, if_pos rfl] at hc
        exact ih true c hc hsp
      | false =>
        simp only [collapseWS, if_pos hd] at hc
        rcases List.mem_cons.mp hc with h1 | h1
        · exact h1
        · exact ih true c h1 hsp
    · simp only [collapseWS, if_neg hd] at hc
      rcases List.mem_cons.mp hc with h1 | h1
      · subst h1; exact absurd hsp hd
      · exact ih false c h1 hsp

theorem noTwoSpaces_collapseWS : ∀ (b : Bool) (l : List Char),
    NoTwoSpaces (collapseWS b l) := by
  intro b l
  induction l generalizing b with
  | nil => simp [collapseWS, NoTwoSpaces]
  | cons d rest ih =>
    by_cases hd : reIsSpace d
    · cases b with
      | true =>
        simpa only [collapseWS, if_pos hd, if_pos rfl] using ih true
      | false =>
        simp only [collapseWS, if_pos hd, if_neg Bool.false_ne_true]
        rw [NoTwoSpaces, List.chain'_cons']
        refine ⟨?_, ih true⟩
        intro y hy
        have := collapseWS_true_head rest y hy
        simp [this]
    · simp only [collapseWS, if_neg hd]
      rw [NoTwoSpaces, List.chain'_cons']
      refine ⟨?_, ih false⟩
      intro y _
      exact fun hcontra => hd hcontra.1

theorem collapseWS_eq_self : ∀ (l : List Char) (b : Bool),
    SpacesBlank l → NoTwoSpaces l →
    (b = true → ∀ c, l.head? = some c → reIsSpace c = false) →
    collapseWS b l = l := by
  intro l
  induction l with
  | nil => intro b _ _ _; rfl
  | cons d rest ih =>
    intro b hsb hnts hhead
    by_cases hd : reIsSpace d
    · have hd' : d = ' ' := hsb d (List.mem_cons_self d rest) hd
      have hb : b = false := by
        cases b with
        | false => rfl
        | true => exact absurd hd (by simp [hhead rfl d rfl])
      subst hb
      have hresthead : ∀ c, rest.head? = some c → reIsSpace c = false := by
        intro c hc
        have h1 := (List.chain'_cons'.mp hnts).1 c hc
        by_contra h2
        simp at h2
        exact h1 ⟨hd, h2⟩
      have hrest : collapseWS true rest = rest :=
        ih true (fun c hc => hsb c (List.mem_cons_of_mem _ hc))
          (List.Chain'.tail hnts) (fun _ => hresthead)
      simp only [collapseWS, if_pos hd, if_neg Bool.false_ne_true]
      rw [hrest, hd']
    · have hrest : collapseWS false rest = rest :=
        ih false (fun c hc => hsb c (List.mem_cons_of_mem _ hc))
          (List.Chain'.tail hnts) (by intro h; cases h)
      simp only [collapseWS, if_neg hd]
      rw [hrest]

theorem dropWhile_head_not (q : Char → Bool) : ∀ (l : List Char) (c : Char),
    (l.dropWhile q).head? = some c → q c = false := by
  intro l
  induction l with
  | nil => intro c h; cases h
  | cons d rest ih =>
    intro c h
    by_cases hd : q d
    · rw [List.dropWhile_cons_of_pos hd] at h
      exact ih c h
    · rw [List.dropWhile_cons_of_neg hd, List.head?_cons] at h
      cases h
      simpa using hd

theorem dropWhile_eq_self_of_head (q : Char → Bool) (l : List Char)
    (h : ∀ c, l.head? = some c → q c = false) : l.dropWhile q = l := by
  cases l with
  | nil => rfl
  | cons d rest =>
    have hd := h d rfl
    rw [List.dropWhile_cons_of_neg (by simp [hd])]

theorem dropWhile_dropWhile (q : Char → Bool) (l : List Char) :
    (l.dropWhile q).dropWhile q = l.dropWhile q :=
  dropWhile_eq_self_of_head q _ (dropWhile_head_not q l)

theorem head?_eq_of_ne_nil {l₁ l₂ : List Char} (h : l₁ <+: l₂) (hne : l₁ ≠ []) :
    l₂.head? = l₁.head? := by
  rcases h with ⟨t, rfl⟩
  cases l₁ with
  | nil => exact absurd rfl hne
  | cons a s => rfl

theorem stripEnds_infix_self (q : Char → Bool) (l : List Char) :
    stripEnds q l <:+: l := by
  have h1 : stripEnds q l <+: l.dropWhile q := by
    have h2 : (l.dropWhile q).reverse.dropWhile q <:+ (l.dropWhile q).reverse :=
      List.dropWhile_suffix q
    have h3 := List.reverse_prefix.mpr h2
    rwa [List.reverse_reverse] at h3
  have h4 : stripEnds q l <:+: l.dropWhile q := h1.isInfix
  have h5 : l.dropWhile q <:+: l :=
    List.IsSuffix.isInfix (List.dropWhile_suffix q)
  exact h4.trans h5

theorem stripEnds_idem (q : Char → Bool) (l : List Char) :
    stripEnds q (stripEnds q l) = stripEnds q l := by
  unfold stripEnds
  have hdw : (((l.dropWhile q).reverse.dropWhile q).reverse).dropWhile q
      = ((l.dropWhile q).reverse.dropWhile q).reverse := by
    apply dropWhile_eq_self_of_head
    intro c hc
    by_cases hne : ((l.dropWhile q).reverse.dropWhile q).reverse = []
    · rw [hne] at hc; cases hc
    · have hpfx : ((l.dropWhile q).reverse.dropWhile q).reverse <+: l.dropWhile q := by
        have h2 : ((l.dropWhile q).reverse.dropWhile q).reverse
            <+: ((l.dropWhile q).reverse).reverse :=
          List.reverse_prefix.mpr (List.dropWhile_suffix q)
        rwa [List.reverse_reverse] at h2
      have hh := head?_eq_of_ne_nil hpfx hne
      exact dropWhile_head_not q l c (hh.trans hc)
  rw [hdw, List.reverse_reverse, dropWhile_dropWhile]

theorem normalizeList_chars (l : List Char) :
    ∀ c ∈ normalizeList l, pyLower c = c ∧ (isWordChar c || reIsSpace c) = true := by
  intro c hc
  unfold normalizeList at hc
  have h1 := mem_stripEnds _ _ _ hc
  rcases mem_collapseWS _ _ _ h1 with h2 | h2
  · subst h2
    exact ⟨by decide, by decide⟩
  · constructor
    · rcases List.mem_map.mp (List.mem_filter.mp h2).1 with ⟨a, _, rfl⟩
      exact pyLower_pyLower a
    · exact (List.mem_filter.mp h2).2

theorem normalizeList_idem (l : List Char) :
    normalizeList (normalizeList l) = normalizeList l := by
  have hmap : (normalizeList l).map pyLower = normalizeList l :=
    map_eq_self_of _ _ (fun c hc => (normalizeList_chars l c hc).1)
  have hfilter : (normalizeList l).filter (fun c => isWordChar c || reIsSpace c)
      = normalizeList l :=
    List.filter_eq_self.mpr (fun c hc => (normalizeList_chars l c hc).2)
  have hsb : SpacesBlank (normalizeList l) := by
    intro c hc hsp
    unfold normalizeList at hc
    exact spacesBlank_collapseWS false _ c (mem_stripEnds _ _ _ hc) hsp
  have hnts : NoTwoSpaces (normalizeList l) :=
    List.Chain'.infix (noTwoSpaces_collapseWS false _) (stripEnds_infix_self _ _)
  have hcoll : collapseWS false (normalizeList l) = normalizeList l :=
    collapseWS_eq_self _ false hsb hnts (by intro h; cases h)
  show stripEnds strIsSpace
      (collapseWS false
        (List.filter (fun c => isWordChar c || reIsSpace c)
          ((normalizeList l).map pyLower))) = normalizeList l
  rw [hmap, hfilter, hcoll]
  unfold normalizeList
  exact stripEnds_idem strIsSpace _

/-- C6: The Text Normalizer is idempotent: for every string s,
normalize(normalize(s)) = normalize(s). -/
theorem normalize_text_idempotent (s : String) :
    normalize_text (normalize_text s) = normalize_text s := by
  unfold normalize_text
  exact congrArg String.mk (normalizeList_idem s.data)

/-! The request pipeline of `app.py`, modelled as a pure state-passing
function.  The TinyDB logs of `database.py` become lists inside `AppState`;
the Gemini client becomes a function parameter returning `Except`;
`datetime.now().strftime(...)` becomes the explicit `now` parameter. -/

/-- One record of the chat-history log (`database.py`,
`Database.add_conversation`): role plus content.  The timestamp column is
not modelled. -/
structure LogEntry where
  role : String
  content : String
deriving DecidableEq, Repr

/-- The mutable and startup-loaded state the endpoint touches:
client initialization flag, persona document (opaque), the normalized
phrase-to-response map, the custom-instructions file content, and the two
TinyDB logs. -/
structure AppState where
  geminiClientOk : Bool
  personaData : Option String
  customReplies : List (String × String)
  customInstructions : String
  history : List LogEntry
  notes : List String
deriving DecidableEq, Repr

/-- One element of the caller-supplied `messages` array; `role`/`content`
model `message.get("role")` and `message.get("content")`. -/
structure ClientMessage where
  role : Option String
  content : Option String
deriving DecidableEq, Repr

/-- One turn sent to the Gemini client; `text` models
`parts[0]["text"]`. -/
structure Turn where
  role : String
  text : String
deriving DecidableEq, Repr

/-- Ghost trace of database operations performed while serving one
request, in order. -/
inductive DbEvent where
  | addConversation (role content : String)
  | addNote (content : String)
  | clearHistory
  | clearNotes
deriving DecidableEq, Repr

/-- The visible result of the endpoint: fail-fast client error
(HTTP 500 before any handling), a JSON response, or a generation error
(HTTP 500 from the except-branch). -/
inductive ChatOutcome where
  | clientError
  | response (text : String)
  | generationError (detail : String)
deriving DecidableEq, Repr

/-- Which branch of `chat_endpoint` handled the request (ghost
instrumentation mirroring the if/elif chain of `app.py`). -/
inductive Branch where
  | clientCheckFailed
  | clearHistoryCmd
  | clearNotesCmd
  | saveNoteCmd
  | timeQuery
  | cannedReply
  | generation
deriving DecidableEq, Repr

/-- Full result of one request: handling branch, outcome, post-state,
the turn list passed to `generate_content` when the generation path ran,
and the ghost trace of database writes. -/
structure ChatResult where
  branch : Branch
  outcome : ChatOutcome
  state : AppState
  sentToLLM : Option (List Turn)
  events : List DbEvent
deriving DecidableEq, Repr

/-- Contiguous-substring test on character lists, modelling Python's
`in` operator on strings. -/
def containsSub (needle : List Char) : List Char → Bool
  | [] => needle.isPrefixOf []
  | c :: t => needle.isPrefixOf (c :: t) || containsSub needle t

/-- The system-prompt text assembled in `chat_endpoint` (lines 272-283):
the fixed anti-emoji directive, then the custom instructions when
non-empty, then the persona JSON or the default self-description, joined
with newlines. -/
def buildSystemText (st : AppState) : String :=
  String.intercalate "\n"
    ((["CRITICAL INSTRUCTION: DO NOT use emojis."]
      ++ (if st.customInstructions ≠ "" then
            ["User\x27s Custom Instructions: " ++ st.customInstructions]
          else []))
      ++ (match st.personaData with
          | some persona => [persona]
          | none => ["You are Jarvina, a personal AI assistant."]))

/-- The synthetic leading "user" turn carrying the system instructions. -/
def synthUserTurn (st : AppState) : Turn :=
  ⟨"user", "SYSTEM INSTRUCTIONS:\n" ++ buildSystemText st⟩

/-- The synthetic "model" acknowledgment turn. -/
def synthModelTurn : Turn :=
  ⟨"model", "Understood. I will follow these instructions."⟩

/-- Conversion of the caller's history (lines 299-304): an "assistant"
role maps to "model", every other role to "user"; messages with missing
or empty content are dropped. -/
def historyTurns (msgs : List ClientMessage) : List Turn :=
  msgs.filterMap (fun m =>
    match m.content with
    | some c =>
        if c ≠ "" then
          some ⟨(if m.role = some "assistant" then "model" else "user"), c⟩
        else none
    | none => none)

/-- The message list built for Gemini (lines 286-314): synthetic pair,
then the converted caller history, then the current prompt as a final
"user" turn unless it is empty or identical to the text of the last
message already in the list. -/
def assembleMessages (st : AppState) (user_prompt : String)
    (messages : Option (List ClientMessage)) : List Turn :=
  let withHist :=
    [synthUserTurn st, synthModelTurn]
      ++ (match messages with
          | some ms => historyTurns ms
          | none => [])
  let shouldAppend : Bool :=
    match withHist.getLast? with
    | some t => t.text != user_prompt
    | none => true
  if user_prompt ≠ "" ∧ shouldAppend = true then
    withHist ++ [⟨"user", user_prompt⟩]
  else withHist

/-- State after the initial `if user_prompt: db.add_conversation('user', ...)`
step (lines 227-228). -/
def persistedUserState (st : AppState) (u : String) : AppState :=
  if u ≠ "" then { st with history := st.history ++ [⟨"user", u⟩] } else st

/-- Ghost trace of the same initial step. -/
def persistedUserEvents (u : String) : List DbEvent :=
  if u ≠ "" then [.addConversation "user" u] else []

/-- The note content extracted on the save path (line 246):
`user_prompt[len("save:"):].strip()` — taken from the RAW prompt, not
from the lowercased text used for recognition. -/
def saveNoteContent (u : String) : String :=
  pyStrip ⟨u.data.drop 5⟩

/-- The shared tail of every short-circuit branch (and of the successful
generation branch): `db.add_conversation('assistant', response_text)`
followed by `return JSONResponse(...)`. -/
def respondWith (b : Branch) (st1 : AppState) (ev1 : List DbEvent)
    (text : String) : ChatResult :=
  ⟨b, .response text,
    { st1 with history := st1.history ++ [⟨"assistant", text⟩] },
    none,
    ev1 ++ [.addConversation "assistant" text]⟩

/-- Model of `chat_endpoint` from `app.py` (lines 219-325).  `llm` stands
for `gemini_client.generate_content`, `now` for the formatted
`datetime.now()` string, `messages`/`prompt` for the request body.
`prompt.getD ""` is `chat_request.prompt or ""` and
`pyStrip (pyLowerStr (prompt.getD ""))` is the `normalized_prompt`
variable (`user_prompt.lower().strip()`). -/
def chat_endpoint (llm : List Turn → Except String String) (now : String)
    (st : AppState) (messages : Option (List ClientMessage))
    (prompt : Option String) : ChatResult :=
  if st.geminiClientOk = false then
    ⟨.clientCheckFailed, .clientError, st, none, []⟩
  else if pyStrip (pyLowerStr (prompt.getD "")) = "clear history" then
    respondWith .clearHistoryCmd
      { persistedUserState st (prompt.getD "") with history := [] }
      (persistedUserEvents (prompt.getD "") ++ [.clearHistory])
      "Chat history has been cleared."
  else if pyStrip (pyLowerStr (prompt.getD "")) = "clear notes" then
    respondWith .clearNotesCmd
      { persistedUserState st (prompt.getD "") with notes := [] }
      (persistedUserEvents (prompt.getD "") ++ [.clearNotes])
      "All saved notes have been cleared."
  else if "save:".data.isPrefixOf (pyStrip (pyLowerStr (prompt.getD ""))).data
      = true then
    if saveNoteContent (prompt.getD "") ≠ "" then
      respondWith .saveNoteCmd
        { persistedUserState st (prompt.getD "") with
            notes := (persistedUserState st (prompt.getD "")).notes
              ++ [saveNoteContent (prompt.getD "")] }
        (persistedUserEvents (prompt.getD "")
          ++ [.addNote (saveNoteContent (prompt.getD ""))])
        ("Got it. I\x27ve saved the note: \""
          ++ saveNoteContent (prompt.getD "") ++ "\"")
    else
      respondWith .saveNoteCmd (persistedUserState st (prompt.getD ""))
        (persistedUserEvents (prompt.getD ""))
        "Please provide content after \x27save:\x27 to save a note."
  else if (containsSub "current time".data
            (pyStrip (pyLowerStr (prompt.getD ""))).data
        || containsSub "what time is it".data
            (pyStrip (pyLowerStr (prompt.getD ""))).data) = true then
    respondWith .timeQuery (persistedUserState st (prompt.getD ""))
      (persistedUserEvents (prompt.getD ""))
      ("The current time is " ++ now ++ ".")
  else
    match st.customReplies.lookup (normalize_text (prompt.getD "")) with
    | some response_text =>
      respondWith .cannedReply (persistedUserState st (prompt.getD ""))
        (persistedUserEvents (prompt.getD "")) response_text
    | none =>
      match llm (assembleMessages st (prompt.getD "") messages) with
      | .ok response_content =>
        { respondWith .generation (persistedUserState st (prompt.getD ""))
            (persistedUserEvents (prompt.getD "")) response_content with
          sentToLLM := some (assembleMessages st (prompt.getD "") messages) }
      | .error e =>
        ⟨.generation, .generationError e, persistedUserState st (prompt.getD ""),
          some (assembleMessages st (prompt.getD "") messages),
          persistedUserEvents (prompt.getD "")⟩

/-- A small concrete state used for witnesses and counterexamples. -/
def st0 : AppState :=
  ⟨true, none, [], "", [], []⟩

/-- A concrete state whose reply map also contains the command phrase. -/
def stWithCmdKey : AppState :=
  ⟨true, none, [("clear history", "canned!")], "", [], []⟩

/-- Degraded state: client failed to initialize at startup. -/
def stDegraded : AppState :=
  ⟨false, none, [("clear history", "canned!")], "", [], []⟩

/-- An LLM stub that always succeeds. -/
def llmOk : List Turn → Except String String := fun _ => .ok "generated"

/-- An LLM stub that always fails. -/
def llmFail : List Turn → Except String String := fun _ => .error "boom"

/-- C1 counterexample: in degraded mode (missing credential, so
`gemini_client` is `None`), the command utterance "clear history" does
NOT succeed: the endpoint fails with the client-not-initialized error
before command handling, the history log is not touched and the fixed
confirmation is never produced — contradicting the claim that command
paths remain functional. -/
theorem degraded_command_fails_cex :
    (chat_endpoint llmOk "10:00:00 AM" stDegraded none (some "clear history")).outcome
        = ChatOutcome.clientError ∧
    (chat_endpoint llmOk "10:00:00 AM" stDegraded none (some "clear history")).state
        = stDegraded ∧
    (chat_endpoint llmOk "10:00:00 AM" stDegraded none (some "clear history")).outcome
        ≠ ChatOutcome.response "Chat history has been cleared." := by
  decide

/-- C1 (amended): when the language-model backend is missing its required
credential at startup, EVERY chat request — commands and canned replies
included — fails fast with the client-not-initialized error, no state
changes and no database write occurs; no degraded mode keeps the command
or canned-reply paths functional. -/
theorem degraded_rejects_every_request
    (llm : List Turn → Except String String) (now : String) (st : AppState)
    (messages : Option (List ClientMessage)) (prompt : Option String)
    (h : st.geminiClientOk = false) :
    chat_endpoint llm now st messages prompt =
      ⟨.clientCheckFailed, .clientError, st, none, []⟩ := by
  unfold chat_endpoint
  rw [if_pos h]

theorem degraded_rejects_every_request_witness :
    stDegraded.geminiClientOk = false ∧
    chat_endpoint llmOk "10:00:00 AM" stDegraded none (some "what time is it") =
      ⟨.clientCheckFailed, .clientError, stDegraded, none, []⟩ :=
  ⟨rfl, degraded_rejects_every_request llmOk "10:00:00 AM" stDegraded none
    (some "what time is it") rfl⟩

/-- The normalizer as the specification words it: lowercase, remove every
character that is not alphanumeric and not whitespace, collapse
whitespace runs, trim.  (Modelled from the spec for comparison with the
implementation; the implementation keeps `_` because the regex class
`\w` includes it.) -/
def specNormalize (s : String) : String :=
  ⟨stripEnds strIsSpace
    (collapseWS false
      (List.filter (fun c => c.isAlphanum || reIsSpace c) (s.data.map pyLower)))⟩

/-- The normalizer as amended: lowercase, remove every character that is
not alphanumeric, not an underscore and not whitespace, collapse
whitespace runs, trim. -/
def specNormalizeAmended (s : String) : String :=
  ⟨stripEnds strIsSpace
    (collapseWS false
      (List.filter (fun c => c.isAlphanum || c == '_' || reIsSpace c)
        (s.data.map pyLower)))⟩

/-- C5 counterexample: on the input "_" the implementation returns "_"
while the claimed description (remove everything that is neither
alphanumeric nor whitespace) returns "": the underscore is kept by the
code because Python's regex class `\w` contains it. -/
theorem normalize_underscore_cex :
    normalize_text "_" = "_" ∧ specNormalize "_" = "" ∧
    normalize_text "_" ≠ specNormalize "_" := by
  decide

/-- C5 (amended): for every input string the normalizer output is the
input lowercased with every character that is not alphanumeric, not an
underscore and not whitespace removed, whitespace runs collapsed to a
single space, and ends trimmed; in particular
normalize("Hello, World!!") = "hello world". -/
theorem normalize_matches_amended_description :
    (∀ s : String, normalize_text s = specNormalizeAmended s) ∧
    normalize_text "Hello, World!!" = "hello world" := by
  constructor
  · intro s
    unfold normalize_text specNormalizeAmended normalizeList
    refine congrArg String.mk ?_
    refine congrArg (stripEnds strIsSpace) (congrArg (collapseWS false) ?_)
    refine List.filter_congr ?_
    intro c _
    simp [isWordChar, Bool.or_assoc]
  · decide

/-- C7: the command check precedes the canned-reply lookup: on the exact
utterance "clear history" the history log is truncated and the fixed
confirmation returned even when the normalized utterance is also a key of
the reply map; the canned-reply branch never handles it. -/
theorem command_check_precedes_reply_map
    (llm : List Turn → Except String String) (now : String) (st : AppState)
    (messages : Option (List ClientMessage)) (resp : String)
    (hok : st.geminiClientOk = true)
    (hkey : st.customReplies.lookup (normalize_text "clear history") = some resp) :
    (chat_endpoint llm now st messages (some "clear history")).branch
        = Branch.clearHistoryCmd ∧
    (chat_endpoint llm now st messages (some "clear history")).outcome
        = ChatOutcome.response "Chat history has been cleared." ∧
    (chat_endpoint llm now st messages (some "clear history")).branch
        ≠ Branch.cannedReply ∧
    (chat_endpoint llm now st messages (some "clear history")).state.history
        = [⟨"assistant", "Chat history has been cleared."⟩] := by
  unfold chat_endpoint
  rw [if_neg (by simp [hok])]
  exact ⟨rfl, rfl, fun h => Branch.noConfusion h, rfl⟩

theorem command_check_precedes_reply_map_witness :
    stWithCmdKey.geminiClientOk = true ∧
    stWithCmdKey.customReplies.lookup (normalize_text "clear history")
      = some "canned!" ∧
    (chat_endpoint llmOk "10:00:00 AM" stWithCmdKey none (some "clear history")).branch
      = Branch.clearHistoryCmd := by
  refine ⟨rfl, by decide, ?_⟩
  exact (command_check_precedes_reply_map llmOk "10:00:00 AM" stWithCmdKey none
    "canned!" rfl (by decide)).1

/-- C8 counterexample: a request with the non-empty prompt equal to the
synthetic acknowledgment text and no caller history is assembled into
only TWO turns — the prompt is not appended because the last message
(the synthetic "model" acknowledgment) already carries identical text —
contradicting the claimed minimum length of 3. -/
theorem assembler_length_two_cex :
    "Understood. I will follow these instructions." ≠ "" ∧
    (assembleMessages st0 "Understood. I will follow these instructions." none).length
      = 2 := by
  decide

/-- C8 (amended): for every request reaching the assembler with a
non-empty prompt, the synthetic instruction pair is emitted first and
exactly once (the assembled list is the pair followed only by converted
history turns and possibly the final prompt turn), and the sequence has
length at least 3 EXCEPT when the caller history contributes no turns
and the prompt equals the synthetic acknowledgment text, in which case
the prompt is not appended and the length is 2. -/
theorem assembler_pair_first_min_length (st : AppState) (user_prompt : String)
    (messages : Option (List ClientMessage)) (h : user_prompt ≠ "") :
    ((assembleMessages st user_prompt messages).take 2
        = [synthUserTurn st, synthModelTurn]) ∧
    ((assembleMessages st user_prompt messages).drop 2
          = historyTurns (messages.getD [])
      ∨ (assembleMessages st user_prompt messages).drop 2
          = historyTurns (messages.getD []) ++ [⟨"user", user_prompt⟩]) ∧
    (3 ≤ (assembleMessages st user_prompt messages).length
      ∨ (historyTurns (messages.getD []) = []
          ∧ user_prompt = synthModelTurn.text
          ∧ (assembleMessages st user_prompt messages).length = 2)) := by
  have core : ∀ hist : List Turn,
      hist = (match messages with
              | some ms => historyTurns ms
              | none => []) →
      hist = historyTurns (messages.getD []) →
      ((assembleMessages st user_prompt messages).take 2
          = [synthUserTurn st, synthModelTurn]) ∧
      ((assembleMessages st user_prompt messages).drop 2 = hist
        ∨ (assembleMessages st user_prompt messages).drop 2
            = hist ++ [⟨"user", user_prompt⟩]) ∧
      (3 ≤ (assembleMessages st user_prompt messages).length
        ∨ (hist = [] ∧ user_prompt = synthModelTurn.text
            ∧ (assembleMessages st user_prompt messages).length = 2)) := by
    intro hist hmatch _
    unfold assembleMessages
    rw [← hmatch]
    cases hist with
    | nil =>
      by_cases hc : synthModelTurn.text = user_prompt
      · rw [if_neg (by simp [hc])]
        exact ⟨rfl, Or.inl rfl, Or.inr ⟨rfl, hc.symm, rfl⟩⟩
      · rw [if_pos ⟨h, by simp [hc]⟩]
        exact ⟨rfl, Or.inr rfl, Or.inl (by simp)⟩
    | cons d t =>
      by_cases hc : (user_prompt ≠ ""
          ∧ (match ([synthUserTurn st, synthModelTurn] ++ d :: t).getLast? with
             | some u => u.text != user_prompt
             | none => true) = true)
      · rw [if_pos hc]
        refine ⟨rfl, Or.inr rfl, Or.inl ?_⟩
        simp [List.length_append]
      · rw [if_neg hc]
        refine ⟨rfl, Or.inl rfl, Or.inl ?_⟩
        simp [List.length_append]
  cases messages with
  | none => exact core [] rfl rfl
  | some ms => exact core (historyTurns ms) rfl rfl

theorem assembler_pair_first_min_length_witness :
    "hello" ≠ "" ∧
    ((assembleMessages st0 "hello" none).take 2
        = [synthUserTurn st0, synthModelTurn]) := by
  refine ⟨by decide, ?_⟩
  exact (assembler_pair_first_min_length st0 "hello" none (by decide)).1

/-- Recognizer for ghost events that persist a 'user' history entry. -/
def isUserAdd : DbEvent → Bool
  | .addConversation r _ => r == "user"
  | _ => false

/-- C10: a request with empty prompt and empty caller history is not
rejected: it passes every command and reply check, persists no 'user'
entry, and invokes the language-model backend with exactly the two
synthetic instruction turns.  (Requires the startup reply map not to
contain a key for the empty normalized string, which holds unless some
configured phrase normalizes to "".) -/
theorem degenerate_request_reaches_generation
    (llm : List Turn → Except String String) (now : String) (st : AppState)
    (messages : Option (List ClientMessage)) (prompt : Option String)
    (hok : st.geminiClientOk = true)
    (hmap : st.customReplies.lookup "" = none)
    (hp : prompt.getD "" = "")
    (hm : messages = none ∨ messages = some []) :
    (chat_endpoint llm now st messages prompt).branch = Branch.generation ∧
    (chat_endpoint llm now st messages prompt).sentToLLM
        = some [synthUserTurn st, synthModelTurn] ∧
    (chat_endpoint llm now st messages prompt).events.filter isUserAdd = [] := by
  have hprompt : prompt = none ∨ prompt = some "" := by
    cases prompt with
    | none => exact Or.inl rfl
    | some p =>
      right
      simp only [Option.getD] at hp
      rw [hp]
  have key : ∀ (messages' : Option (List ClientMessage)),
      messages' = none ∨ messages' = some [] →
      (chat_endpoint llm now st messages' none).branch = Branch.generation ∧
      (chat_endpoint llm now st messages' none).sentToLLM
          = some [synthUserTurn st, synthModelTurn] ∧
      (chat_endpoint llm now st messages' none).events.filter isUserAdd = [] := by
    intro messages' hm'
    unfold chat_endpoint
    rw [if_neg (by simp [hok])]
    rw [show normalize_text ((none : Option String).getD "") = "" from rfl, hmap]
    rcases hm' with rfl | rfl
    · cases hllm : llm (assembleMessages st ((none : Option String).getD "") none) with
      | ok t => exact ⟨rfl, rfl, rfl⟩
      | error e => exact ⟨rfl, rfl, rfl⟩
    · cases hllm : llm (assembleMessages st ((none : Option String).getD "") (some [])) with
      | ok t => exact ⟨rfl, rfl, rfl⟩
      | error e => exact ⟨rfl, rfl, rfl⟩
  have heq : chat_endpoint llm now st messages prompt
      = chat_endpoint llm now st messages none := by
    rcases hprompt with rfl | rfl
    · rfl
    · unfold chat_endpoint
      rfl
  rw [heq]
  exact key messages hm

/-- Projection fact: the initial user-entry persist step never touches
the notes log. -/
theorem persistedUserState_notes (st : AppState) (u : String) :
    (persistedUserState st u).notes = st.notes := by
  unfold persistedUserState
  split <;> rfl

/-- Projection fact: the initial persist step appends exactly one 'user'
entry when the prompt is non-empty and nothing otherwise. -/
theorem persistedUserState_history (st : AppState) (u : String) :
    (persistedUserState st u).history
      = st.history ++ (if u ≠ "" then [⟨"user", u⟩] else []) := by
  unfold persistedUserState
  split
  · rfl
  · simp

/-- C4 counterexample: the utterance "Clear History!" normalizes (per the
Text Normalizer) to "clear history", yet the command does not fire: the
command check uses `lower().strip()` which keeps the punctuation, so the
request falls through to the generation path and the fixed confirmation
is never produced. -/
theorem clear_history_punctuation_cex :
    normalize_text "Clear History!" = "clear history" ∧
    (chat_endpoint llmOk "10:00:00 AM" st0 none (some "Clear History!")).branch
        = Branch.generation ∧
    (chat_endpoint llmOk "10:00:00 AM" st0 none (some "Clear History!")).outcome
        ≠ ChatOutcome.response "Chat history has been cleared." := by
  decide

/-- C4 (amended): the Command Interpreter operates on the lowercased,
trimmed — but NOT punctuation-stripped — utterance: whenever
`lower().strip()` of the utterance equals "clear history" the history
log is truncated (leaving only the appended confirmation entry) and the
fixed confirmation is returned, and likewise for "clear notes"; an
utterance like "Clear History!" does not trigger the command. -/
theorem command_interpreter_lower_strip
    (llm : List Turn → Except String String) (now : String) (st : AppState)
    (messages : Option (List ClientMessage)) (prompt : Option String)
    (hok : st.geminiClientOk = true) :
    (pyStrip (pyLowerStr (prompt.getD "")) = "clear history" →
      (chat_endpoint llm now st messages prompt).branch = Branch.clearHistoryCmd ∧
      (chat_endpoint llm now st messages prompt).outcome
          = ChatOutcome.response "Chat history has been cleared." ∧
      (chat_endpoint llm now st messages prompt).state.history
          = [⟨"assistant", "Chat history has been cleared."⟩]) ∧
    (pyStrip (pyLowerStr (prompt.getD "")) = "clear notes" →
      (chat_endpoint llm now st messages prompt).branch = Branch.clearNotesCmd ∧
      (chat_endpoint llm now st messages prompt).outcome
          = ChatOutcome.response "All saved notes have been cleared." ∧
      (chat_endpoint llm now st messages prompt).state.notes = []) := by
  constructor
  · intro hch
    unfold chat_endpoint
    rw [if_neg (by simp [hok]), if_pos hch]
    exact ⟨rfl, rfl, rfl⟩
  · intro hcn
    have hnch : ¬(pyStrip (pyLowerStr (prompt.getD "")) = "clear history") := by
      rw [hcn]; decide
    unfold chat_endpoint
    rw [if_neg (by simp [hok]), if_neg hnch, if_pos hcn]
    exact ⟨rfl, rfl, rfl⟩

theorem command_interpreter_lower_strip_witness :
    st0.geminiClientOk = true ∧
    (chat_endpoint llmOk "10:00:00 AM" st0 none (some " Clear History ")).branch
        = Branch.clearHistoryCmd :=
  ⟨rfl, ((command_interpreter_lower_strip llmOk "10:00:00 AM" st0 none
    (some " Clear History ") rfl).1 (by decide)).1⟩

/-- C3 counterexample: the utterance "Save: buy milk" does NOT start with
the exact characters "save:", yet the save command fires (recognition is
on the lowercased, trimmed text) and persists the note "buy milk" —
contradicting the claimed case-sensitive raw-prefix recognition. -/
theorem save_case_insensitive_cex :
    (chat_endpoint llmOk "10:00:00 AM" st0 none (some "Save: buy milk")).branch
        = Branch.saveNoteCmd ∧
    (chat_endpoint llmOk "10:00:00 AM" st0 none (some "Save: buy milk")).state.notes
        = ["buy milk"] ∧
    (chat_endpoint llmOk "10:00:00 AM" st0 none (some "Save: buy milk")).outcome
        = ChatOutcome.response "Got it. I\x27ve saved the note: \"buy milk\"" := by
  decide

/-- C3 (amended): the save-note command is recognized by a prefix match
of "save:" on the LOWERCASED, TRIMMED utterance (hence case-insensitively
and despite leading whitespace); when it fires, the note content is the
raw utterance minus its first five characters, trimmed (non-empty content
is persisted, empty content yields the guidance response); when the
lowercased trimmed utterance does not start with "save:", the save branch
does not handle the request. -/
theorem save_cmd_recognition
    (llm : List Turn → Except String String) (now : String) (st : AppState)
    (messages : Option (List ClientMessage)) (prompt : Option String)
    (hok : st.geminiClientOk = true) :
    ("save:".data.isPrefixOf (pyStrip (pyLowerStr (prompt.getD ""))).data = true →
      (chat_endpoint llm now st messages prompt).branch = Branch.saveNoteCmd ∧
      (saveNoteContent (prompt.getD "") ≠ "" →
        (chat_endpoint llm now st messages prompt).state.notes
            = st.notes ++ [saveNoteContent (prompt.getD "")] ∧
        (chat_endpoint llm now st messages prompt).outcome
            = ChatOutcome.response ("Got it. I\x27ve saved the note: \""
                ++ saveNoteContent (prompt.getD "") ++ "\"")) ∧
      (saveNoteContent (prompt.getD "") = "" →
        (chat_endpoint llm now st messages prompt).state.notes = st.notes ∧
        (chat_endpoint llm now st messages prompt).outcome
            = ChatOutcome.response
                "Please provide content after \x27save:\x27 to save a note.")) ∧
    ("save:".data.isPrefixOf (pyStrip (pyLowerStr (prompt.getD ""))).data = false →
      (chat_endpoint llm now st messages prompt).branch ≠ Branch.saveNoteCmd) := by
  constructor
  · intro hpre
    have hnch : ¬(pyStrip (pyLowerStr (prompt.getD "")) = "clear history") := by
      intro heq; rw [heq] at hpre; exact absurd hpre (by decide)
    have hncn : ¬(pyStrip (pyLowerStr (prompt.getD "")) = "clear notes") := by
      intro heq; rw [heq] at hpre; exact absurd hpre (by decide)
    unfold chat_endpoint
    rw [if_neg (by simp [hok]), if_neg hnch, if_neg hncn, if_pos hpre]
    refine ⟨?_, ?_, ?_⟩
    · by_cases hnc : saveNoteContent (prompt.getD "") ≠ ""
      · rw [if_pos hnc]; rfl
      · rw [if_neg hnc]; rfl
    · intro hnc
      rw [if_pos hnc]
      refine ⟨?_, rfl⟩
      show (persistedUserState st (prompt.getD "")).notes
          ++ [saveNoteContent (prompt.getD "")]
        = st.notes ++ [saveNoteContent (prompt.getD "")]
      rw [persistedUserState_notes]
    · intro hz
      rw [if_neg (by simp [hz])]
      exact ⟨persistedUserState_notes st (prompt.getD ""), rfl⟩
  · intro hpre
    unfold chat_endpoint
    rw [if_neg (by simp [hok])]
    by_cases h1 : pyStrip (pyLowerStr (prompt.getD "")) = "clear history"
    · rw [if_pos h1]; exact fun h => Branch.noConfusion h
    · rw [if_neg h1]
      by_cases h2 : pyStrip (pyLowerStr (prompt.getD "")) = "clear notes"
      · rw [if_pos h2]; exact fun h => Branch.noConfusion h
      · rw [if_neg h2, if_neg (by simp [hpre])]
        by_cases h4 : (containsSub "current time".data
              (pyStrip (pyLowerStr (prompt.getD ""))).data
            || containsSub "what time is it".data
              (pyStrip (pyLowerStr (prompt.getD ""))).data) = true
        · rw [if_pos h4]; exact fun h => Branch.noConfusion h
        · rw [if_neg h4]
          cases hlu : st.customReplies.lookup (normalize_text (prompt.getD "")) with
          | some rt => exact fun h => Branch.noConfusion h
          | none =>
            cases hllm : llm (assembleMessages st (prompt.getD "") messages) with
            | ok t => exact fun h => Branch.noConfusion h
            | error e => exact fun h => Branch.noConfusion h

theorem save_cmd_recognition_witness :
    st0.geminiClientOk = true ∧
    (chat_endpoint llmOk "10:00:00 AM" st0 none (some "sAvE: hi")).branch
        = Branch.saveNoteCmd :=
  ⟨rfl, ((save_cmd_recognition llmOk "10:00:00 AM" st0 none
    (some "sAvE: hi") rfl).1 (by decide)).1⟩

theorem degenerate_request_reaches_generation_witness :
    st0.geminiClientOk = true ∧
    st0.customReplies.lookup "" = none ∧
    ((none : Option String).getD "" = "") ∧
    (chat_endpoint llmOk "10:00:00 AM" st0 none none).branch
      = Branch.generation := by
  refine ⟨rfl, rfl, rfl, ?_⟩
  exact (degenerate_request_reaches_generation llmOk "10:00:00 AM" st0 none none
    rfl rfl rfl (Or.inl rfl)).1

/-- C2: for every request that reaches the generation path (branch is
`generation`) and whose backend call fails, the failure is surfaced to
the caller as a generation error, the post-state is exactly the state
after the initial user-entry persist — so the user's utterance (when
non-empty) is the only record added to the history log and no
'assistant' entry is persisted — and the ghost event trace contains only
the initial user persist. -/
theorem generation_failure_atomic
    (llm : List Turn → Except String String) (now : String) (st : AppState)
    (messages : Option (List ClientMessage)) (prompt : Option String)
    (e : String)
    (hbr : (chat_endpoint llm now st messages prompt).branch = Branch.generation)
    (hllm : llm (assembleMessages st (prompt.getD "") messages)
        = Except.error e) :
    (chat_endpoint llm now st messages prompt).outcome
        = ChatOutcome.generationError e ∧
    (chat_endpoint llm now st messages prompt).state
        = persistedUserState st (prompt.getD "") ∧
    (chat_endpoint llm now st messages prompt).events
        = persistedUserEvents (prompt.getD "") ∧
    (chat_endpoint llm now st messages prompt).state.history
        = st.history
          ++ (if prompt.getD "" ≠ "" then [⟨"user", prompt.getD ""⟩] else []) := by
  unfold chat_endpoint at hbr ⊢
  by_cases h0 : st.geminiClientOk = false
  · rw [if_pos h0] at hbr
    exact Branch.noConfusion hbr
  · rw [if_neg h0] at hbr ⊢
    by_cases h1 : pyStrip (pyLowerStr (prompt.getD "")) = "clear history"
    · rw [if_pos h1] at hbr
      exact Branch.noConfusion hbr
    · rw [if_neg h1] at hbr ⊢
      by_cases h2 : pyStrip (pyLowerStr (prompt.getD "")) = "clear notes"
      · rw [if_pos h2] at hbr
        exact Branch.noConfusion hbr
      · rw [if_neg h2] at hbr ⊢
        by_cases h3 : "save:".data.isPrefixOf
            (pyStrip (pyLowerStr (prompt.getD ""))).data = true
        · rw [if_pos h3] at hbr
          by_cases hn : saveNoteContent (prompt.getD "") ≠ ""
          · rw [if_pos hn] at hbr
            exact Branch.noConfusion hbr
          · rw [if_neg hn] at hbr
            exact Branch.noConfusion hbr
        · rw [if_neg h3] at hbr ⊢
          by_cases h4 : (containsSub "current time".data
                (pyStrip (pyLowerStr (prompt.getD ""))).data
              || containsSub "what time is it".data
                (pyStrip (pyLowerStr (prompt.getD ""))).data) = true
          · rw [if_pos h4] at hbr
            exact Branch.noConfusion hbr
          · rw [if_neg h4] at hbr ⊢
            cases hlu : st.customReplies.lookup (normalize_text (prompt.getD "")) with
            | some rt =>
              rw [hlu] at hbr
              exact Branch.noConfusion hbr
            | none =>
              rw [hllm]
              exact ⟨rfl, rfl, rfl, persistedUserState_history st (prompt.getD "")⟩

theorem generation_failure_atomic_witness :
    ((chat_endpoint llmFail "10:00:00 AM" st0 none (some "hello")).branch
        = Branch.generation) ∧
    (llmFail (assembleMessages st0 "hello" none) = Except.error "boom") ∧
    ((chat_endpoint llmFail "10:00:00 AM" st0 none (some "hello")).outcome
        = ChatOutcome.generationError "boom") ∧
    (chat_endpoint llmFail "10:00:00 AM" st0 none (some "hello")).state.history
        = st0.history ++ [⟨"user", "hello"⟩] := by
  refine ⟨by decide, rfl, ?_, ?_⟩
  · exact (generation_failure_atomic llmFail "10:00:00 AM" st0 none
      (some "hello") "boom" (by decide) rfl).1
  · have h := (generation_failure_atomic llmFail "10:00:00 AM" st0 none
      (some "hello") "boom" (by decide) rfl).2.2.2
    simpa using h

/-- C9: for every request with a non-empty utterance handled with the
client initialized, the database-event trace of the request contains
exactly one persist of a 'user' history entry, carrying the utterance —
regardless of whether a command, the canned-reply table or the generation
path handles the request. -/
theorem user_entry_persisted_once
    (llm : List Turn → Except String String) (now : String) (st : AppState)
    (messages : Option (List ClientMessage)) (prompt : Option String)
    (hok : st.geminiClientOk = true) (hne : prompt.getD "" ≠ "") :
    (chat_endpoint llm now st messages prompt).events.filter isUserAdd
      = [DbEvent.addConversation "user" (prompt.getD "")] := by
  have hev : persistedUserEvents (prompt.getD "")
      = [DbEvent.addConversation "user" (prompt.getD "")] := if_pos hne
  unfold chat_endpoint
  rw [if_neg (by simp [hok]), hev]
  by_cases h1 : pyStrip (pyLowerStr (prompt.getD "")) = "clear history"
  · rw [if_pos h1]; rfl
  · rw [if_neg h1]
    by_cases h2 : pyStrip (pyLowerStr (prompt.getD "")) = "clear notes"
    · rw [if_pos h2]; rfl
    · rw [if_neg h2]
      by_cases h3 : "save:".data.isPrefixOf
          (pyStrip (pyLowerStr (prompt.getD ""))).data = true
      · rw [if_pos h3]
        by_cases hn : saveNoteContent (prompt.getD "") ≠ ""
        · rw [if_pos hn]; rfl
        · rw [if_neg hn]; rfl
      · rw [if_neg h3]
        by_cases h4 : (containsSub "current time".data
              (pyStrip (pyLowerStr (prompt.getD ""))).data
            || containsSub "what time is it".data
              (pyStrip (pyLowerStr (prompt.getD ""))).data) = true
        · rw [if_pos h4]; rfl
        · rw [if_neg h4]
          cases hlu : st.customReplies.lookup (normalize_text (prompt.getD "")) with
          | some rt => rfl
          | none =>
            cases hllm : llm (assembleMessages st (prompt.getD "") messages) with
            | ok t => rfl
            | error e => rfl

theorem user_entry_persisted_once_witness :
    st0.geminiClientOk = true ∧
    ((some "hello" : Option String).getD "" ≠ "") ∧
    (chat_endpoint llmOk "10:00:00 AM" st0 none (some "hello")).events.filter isUserAdd
      = [DbEvent.addConversation "user" "hello"] := by
  refine ⟨rfl, by decide, ?_⟩
  exact user_entry_persisted_once llmOk "10:00:00 AM" st0 none (some "hello")
    rfl (by decide)

end Jarvina
